import Mathlib

/-!
# ClawSync tool-assembly layer: a shallow embedding

This file embeds the dynamic tool-assembly and agent-dispatch layer of the
ClawSync repository (Convex/TypeScript) and settles the frozen claims about it.

Modelling conventions:
* Host-environment functions (`fetch`, `JSON.parse`, `new URL`, the Convex
  query/mutation/action runners) are modelled as explicit function parameters
  or as outcome values passed into the embedded handler, so that each handler
  becomes a pure function of its inputs and of the host's responses.
* JS numbers used as timestamps/durations are modelled as `Int`; string
  operations stay on `String`/`List Char` (the strings involved are ASCII
  after sanitization, so UTF-16 unit counts and character counts agree).
* Effects (security checks, executions, audit-log writes, network requests)
  are reified as events in the returned traces so that ordering and
  cardinality claims can be stated.
-/

namespace ClawSync

/-! ## Core data model (from `convex/schema.ts`) -/

inductive SkillType where
  | template
  | webhook
  | code
deriving DecidableEq, Repr

inductive SkillStatus where
  | active
  | inactive
  | pending
deriving DecidableEq, Repr

/-- A `skillRegistry` row (the fields the tool loader reads). -/
structure Skill where
  sid : Nat
  name : String
  skillType : SkillType
  status : SkillStatus
  approved : Bool
deriving DecidableEq, Repr

/-- An `mcpServers` row (the fields the tool loader reads). -/
structure McpServer where
  mid : Nat
  name : String
  url : Option String
  enabled : Bool
  approved : Bool
deriving DecidableEq, Repr

/-! ## Tool-name sanitization (from `toolLoader.ts`, `loadTools`)

The source sanitizes a skill or MCP tool name with
`name.replace(/[^a-zA-Z0-9_-]/g, '_').replace(/_+/g, '_').slice(0, 128)`. -/

/-- The charset `[a-zA-Z0-9_-]` of the sanitization regex. -/
def isAllowedChar (c : Char) : Bool :=
  (('a' ≤ c && c ≤ 'z') || ('A' ≤ c && c ≤ 'Z') || ('0' ≤ c && c ≤ '9')
    || c == '_' || c == '-')

/-- One step of `replace(/[^a-zA-Z0-9_-]/g, '_')`: a disallowed character
becomes an underscore.  (In JS each UTF-16 unit of a non-ASCII character is
replaced separately, yielding a run of underscores; the run is collapsed by
the next step exactly as a single underscore is, so mapping one code point to
one underscore is equivalent after collapsing.) -/
def replaceDisallowed (c : Char) : Char :=
  if isAllowedChar c then c else '_'

/-- `replace(/_+/g, '_')`: each maximal run of underscores collapses to a
single underscore (processing from the right, an underscore followed by a
collapsed tail that already starts with an underscore is dropped). -/
def collapseUnderscoreRuns : List Char → List Char
  | [] => []
  | c :: rest =>
    if c == '_' && ((collapseUnderscoreRuns rest).head? == some '_') then
      collapseUnderscoreRuns rest
    else c :: collapseUnderscoreRuns rest

/-- `safeName` computation of `loadTools` for skill and MCP tool names:
restrict the charset, collapse underscore runs, truncate to 128. -/
def sanitizeToolName (name : String) : String :=
  String.mk ((collapseUnderscoreRuns (name.data.map replaceDisallowed)).take 128)

/-- Peer-agent tool names use `peer.name.replace(/[^a-zA-Z0-9_-]/g,'_').slice(0,100)`
(no underscore collapsing) prefixed by `ask_agent_`. -/
def sanitizePeerName (name : String) : String :=
  String.mk ((name.data.map replaceDisallowed).take 100)

def peerToolKey (name : String) : String :=
  "ask_agent_" ++ sanitizePeerName name

/-- No two adjacent underscores (what `replace(/_+/g,'_')` guarantees). -/
def noDoubleUnderscore : List Char → Bool
  | c1 :: c2 :: rest => !(c1 == '_' && c2 == '_') && noDoubleUnderscore (c2 :: rest)
  | _ => true

/-- A separator character in the sense of the specification: underscore or
hyphen, the two non-alphanumeric characters of the allowed charset. -/
def isSeparatorChar (c : Char) : Bool := c == '_' || c == '-'

/-- The specification's collapsing property: no run of a repeated separator
character, i.e. no two adjacent equal separator characters. -/
def noRepeatedSeparator : List Char → Bool
  | c1 :: c2 :: rest =>
    !(isSeparatorChar c1 && isSeparatorChar c2 && c1 == c2)
      && noRepeatedSeparator (c2 :: rest)
  | _ => true

/-! ### Sanitization lemmas -/

theorem noDoubleUnderscore_cons_cons (c d : Char) (l : List Char) :
    noDoubleUnderscore (c :: d :: l)
      = (!(c == '_' && d == '_') && noDoubleUnderscore (d :: l)) := rfl

theorem noDoubleUnderscore_single (c : Char) : noDoubleUnderscore [c] = true := rfl

theorem collapseUnderscoreRuns_head? (l : List Char) :
    (collapseUnderscoreRuns l).head? = l.head? := by
  induction l with
  | nil => rfl
  | cons c rest ih =>
    simp only [collapseUnderscoreRuns]
    by_cases h : (c == '_' && ((collapseUnderscoreRuns rest).head? == some '_')) = true
    · rw [if_pos h]
      have hc : c = '_' := by
        have := (Bool.and_eq_true _ _).mp h |>.1
        simpa using this
      have hh : (collapseUnderscoreRuns rest).head? = some '_' := by
        have := (Bool.and_eq_true _ _).mp h |>.2
        simpa using this
      rw [hh, hc]
      rfl
    · rw [if_neg h]
      rfl

theorem mem_collapseUnderscoreRuns {c : Char} {l : List Char}
    (h : c ∈ collapseUnderscoreRuns l) : c ∈ l := by
  induction l with
  | nil => simp [collapseUnderscoreRuns] at h
  | cons d rest ih =>
    simp only [collapseUnderscoreRuns] at h
    by_cases hcond : (d == '_' && ((collapseUnderscoreRuns rest).head? == some '_')) = true
    · rw [if_pos hcond] at h
      exact List.mem_cons_of_mem _ (ih h)
    · rw [if_neg hcond] at h
      rcases List.mem_cons.mp h with h | h
      · exact h ▸ List.mem_cons_self _ _
      · exact List.mem_cons_of_mem _ (ih h)

theorem noDoubleUnderscore_collapseUnderscoreRuns (l : List Char) :
    noDoubleUnderscore (collapseUnderscoreRuns l) = true := by
  induction l with
  | nil => rfl
  | cons c rest ih =>
    simp only [collapseUnderscoreRuns]
    by_cases hcond : (c == '_' && ((collapseUnderscoreRuns rest).head? == some '_')) = true
    · rw [if_pos hcond]; exact ih
    · rw [if_neg hcond]
      cases htail : collapseUnderscoreRuns rest with
      | nil => rfl
      | cons d ds =>
        rw [noDoubleUnderscore_cons_cons]
        rw [htail] at ih
        rw [ih, Bool.and_true]
        by_cases hc : c = '_'
        · subst hc
          by_cases hd : d = '_'
          · subst hd
            exfalso
            apply hcond
            rw [htail]
            rfl
          · have : (d == '_') = false := by simpa using hd
            simp [this]
        · have : (c == '_') = false := by simpa using hc
          simp [this]

theorem noDoubleUnderscore_take (l : List Char) (h : noDoubleUnderscore l = true) :
    ∀ n, noDoubleUnderscore (l.take n) = true := by
  induction l with
  | nil => intro n; simp [List.take_nil, noDoubleUnderscore]
  | cons c rest ih =>
    intro n
    cases n with
    | zero => rfl
    | succ m =>
      cases rest with
      | nil =>
        cases m <;> exact noDoubleUnderscore_single c
      | cons d ds =>
        cases m with
        | zero => exact noDoubleUnderscore_single c
        | succ k =>
          rw [noDoubleUnderscore_cons_cons] at h
          have h1 : (!(c == '_' && d == '_')) = true := by
            cases hb : (!(c == '_' && d == '_')) <;> simp_all
          have h2 : noDoubleUnderscore (d :: ds) = true := by
            cases hb : noDoubleUnderscore (d :: ds) <;> simp_all
          show noDoubleUnderscore (c :: ((d :: ds).take (k + 1))) = true
          have htk : (d :: ds).take (k + 1) = d :: ds.take k := rfl
          rw [htk, noDoubleUnderscore_cons_cons, h1, Bool.true_and]
          have := ih h2 (k + 1)
          rw [htk] at this
          exact this

/-! ## The assembled tool set (from `toolLoader.ts`, `loadTools`)

`loadTools` builds a JS object mapping sanitized tool names to handlers.  We
model the object as an association list with in-place update (JS property
assignment keeps the first occurrence's position), and tag each handler with
its origin so that scoping and collision claims can be stated. -/

/-- A value of the assembled tool set, tagged by provenance. -/
inductive ToolVal where
  | skillTool (s : Skill)
  | mcpTool (serverId : Nat) (toolName : String)
  | builtin (name : String)
  | agentTool (peerName : String)
deriving DecidableEq, Repr

def ToolVal.isMcp : ToolVal → Bool
  | .mcpTool _ _ => true
  | _ => false

/-- JS object property assignment `tools[k] = v`: replace the first binding
for `k` in place, or append a new binding. -/
def setTool : List (String × ToolVal) → String → ToolVal → List (String × ToolVal)
  | [], k, v => [(k, v)]
  | p :: rest, k, v => if p.1 = k then (k, v) :: rest else p :: setTool rest k v

/-- JS object property read `tools[k]` (first binding wins; keys are unique
by construction of `setTool`). -/
def getTool : List (String × ToolVal) → String → Option ToolVal
  | [], _ => none
  | p :: rest, k => if p.1 = k then some p.2 else getTool rest k

/-- The state threaded through `loadTools`: the tool object plus the list of
skill/MCP name conflicts reported via `console.log`. -/
structure ToolState where
  tools : List (String × ToolVal)
  conflicts : List String
deriving DecidableEq, Repr

/-- The tool loader's environment: database contents, per-agent assignment
queries, MCP discovery results and the peer-agent listing.  Discovery maps a
server id to the names of the tools its `tools/list` exchange produced
(`none` models any failure that makes the per-server `try` skip the server:
fetch throw on both transports, a non-ok status, or an unparseable body). -/
structure AgentRec where
  aid : Nat
  name : String
  status : String
deriving DecidableEq, Repr

structure LoadEnv where
  skillsDb : List Skill
  mcpDb : List McpServer
  discovery : Nat → Option (List String)
  assignedSkillIds : Nat → List Nat
  assignedMcpIds : Nat → List Nat
  agents : List AgentRec

/-- Modelled from the spec: the `internal.skillRegistry.getActiveApproved`
query (its implementation is not in the provided sources); per its name and
the spec's "approved + active", it returns the approved, active skills. -/
def getActiveApproved (db : List Skill) : List Skill :=
  db.filter (fun s => s.approved && s.status == SkillStatus.active)

/-- Modelled from the spec: the `api.mcpServers.getEnabledApproved` query
(not in the provided sources); it returns the enabled, approved servers. -/
def getEnabledApproved (db : List McpServer) : List McpServer :=
  db.filter (fun m => m.enabled && m.approved)

/-- Scope filter for skills: with an `agentId` only assigned skills load. -/
def skillAllowed (env : LoadEnv) (aid : Option Nat) (s : Skill) : Bool :=
  match aid with
  | none => true
  | some a => (env.assignedSkillIds a).contains s.sid

/-- Scope filter for MCP servers. -/
def mcpAllowed (env : LoadEnv) (aid : Option Nat) (m : McpServer) : Bool :=
  match aid with
  | none => true
  | some a => (env.assignedMcpIds a).contains m.mid

/-- Phase 1 of `loadTools`: register the active approved skills (respecting
the agent scope).  `createToolFromSkill` returns a tool for each of the three
skill types, so every surviving skill is registered under its sanitized name. -/
def registerSkills (env : LoadEnv) (aid : Option Nat) (st : ToolState) : ToolState :=
  (getActiveApproved env.skillsDb).foldl
    (fun st s =>
      if skillAllowed env aid s then
        { st with tools := setTool st.tools (sanitizeToolName s.name) (ToolVal.skillTool s) }
      else st)
    st

/-- Registering the discovered tools of one MCP server: each tool name is
sanitized; a pre-existing binding is reported as a conflict and then
overwritten with the MCP tool. -/
def registerMcpToolsForServer (m : McpServer) (st : ToolState) (names : List String) : ToolState :=
  names.foldl
    (fun st tn =>
      let k := sanitizeToolName tn
      { tools := setTool st.tools k (ToolVal.mcpTool m.mid tn),
        conflicts := if (getTool st.tools k).isSome then st.conflicts ++ [k] else st.conflicts })
    st

/-- Phase 2 of `loadTools`: for each enabled approved MCP server, skip it if
it has no URL or is out of scope, run discovery, and register its tools. -/
def registerMcp (env : LoadEnv) (aid : Option Nat) (st : ToolState) : ToolState :=
  (getEnabledApproved env.mcpDb).foldl
    (fun st m =>
      match m.url with
      | none => st
      | some _ =>
        if mcpAllowed env aid m then
          match env.discovery m.mid with
          | none => st
          | some names => registerMcpToolsForServer m st names
        else st)
    st

/-- The always-available built-in tools, in registration order. -/
def builtinToolNames : List String :=
  ["list_available_models", "switch_model", "get_current_model", "generate_image",
   "generate_pdf", "send_telegram_message", "send_email", "post_tweet", "schedule_task",
   "list_tools", "list_scheduled_tasks", "delete_scheduled_task", "toggle_scheduled_task",
   "web_fetch", "get_current_date"]

/-- Phase 3 of `loadTools`: register the built-in tools under fixed names. -/
def registerBuiltins (st : ToolState) : ToolState :=
  builtinToolNames.foldl
    (fun st n => { st with tools := setTool st.tools n (ToolVal.builtin n) })
    st

/-- Phase 4 of `loadTools`: with an agent id, register one `ask_agent_*` tool
per peer agent that is not this agent and not in error state. -/
def registerPeers (env : LoadEnv) (aid : Option Nat) (st : ToolState) : ToolState :=
  match aid with
  | none => st
  | some a =>
    (env.agents.filter (fun p => p.aid ≠ a && p.status ≠ "error")).foldl
      (fun st p => { st with tools := setTool st.tools (peerToolKey p.name) (ToolVal.agentTool p.name) })
      st

/-- `loadTools(ctx, agentId?)`: skills, then MCP tools, then builtins, then
peer-agent tools. -/
def loadTools (env : LoadEnv) (aid : Option Nat) : ToolState :=
  registerPeers env aid (registerBuiltins (registerMcp env aid (registerSkills env aid
    { tools := [], conflicts := [] })))

/-! ### Tool-object lemmas -/

theorem getTool_setTool (ts : List (String × ToolVal)) (k : String) (v : ToolVal)
    (k' : String) :
    getTool (setTool ts k v) k' = if k' = k then some v else getTool ts k' := by
  induction ts with
  | nil =>
    by_cases h : k' = k
    · subst h; simp [setTool, getTool]
    · simp only [setTool, getTool, if_neg h, if_neg (fun hh : k = k' => h hh.symm)]
  | cons p rest ih =>
    simp only [setTool]
    by_cases hp : p.1 = k
    · rw [if_pos hp]
      by_cases h : k' = k
      · subst h; simp [getTool]
      · simp only [getTool, if_neg h]
        rw [if_neg (fun hh : k = k' => h hh.symm), if_neg (fun hh : p.1 = k' => h (hp ▸ hh).symm)]
    · rw [if_neg hp]
      by_cases hpk : p.1 = k'
      · have hk : ¬ k' = k := fun hh => hp (hpk.trans hh)
        simp only [getTool, if_pos hpk, if_neg hk]
      · simp only [getTool, if_neg hpk, ih]

theorem isSome_getTool_setTool {ts : List (String × ToolVal)} {k' : String}
    (h : (getTool ts k').isSome = true) (k : String) (v : ToolVal) :
    (getTool (setTool ts k v) k').isSome = true := by
  rw [getTool_setTool]
  by_cases hk : k' = k
  · simp [hk]
  · simpa [hk] using h

theorem isSome_getTool_setTool_self (ts : List (String × ToolVal)) (k : String) (v : ToolVal) :
    (getTool (setTool ts k v) k).isSome = true := by
  rw [getTool_setTool]
  simp

/-! ### Fold helper lemmas -/

theorem foldl_preserve {σ α : Type _} (P : σ → Prop) (f : σ → α → σ) :
    ∀ (l : List α) (s : σ), P s → (∀ s a, a ∈ l → P s → P (f s a)) → P (l.foldl f s) := by
  intro l
  induction l with
  | nil => intro s hs _; exact hs
  | cons c rest ih =>
    intro s hs hstep
    exact ih (f s c) (hstep s c (List.mem_cons_self _ _) hs)
      (fun s a ha => hstep s a (List.mem_cons_of_mem _ ha))

theorem foldl_establish {σ α : Type _} (P : σ → Prop) (f : σ → α → σ) (a : α) :
    ∀ (l : List α) (s : σ), a ∈ l → (∀ s, P (f s a)) →
      (∀ s b, b ∈ l → P s → P (f s b)) → P (l.foldl f s) := by
  intro l
  induction l with
  | nil => intro s ha _ _; cases ha
  | cons c rest ih =>
    intro s ha hset hstep
    rcases List.mem_cons.mp ha with h | h
    · subst h
      exact foldl_preserve P f rest (f s a) (hset s)
        (fun s b hb => hstep s b (List.mem_cons_of_mem _ hb))
    · exact ih (f s c) h hset (fun s b hb => hstep s b (List.mem_cons_of_mem _ hb))

theorem foldl_mem_establish {σ α : Type _} (P R : σ → Prop) (f : σ → α → σ) (a : α) :
    ∀ (l : List α) (s : σ), a ∈ l → P s →
      (∀ s b, b ∈ l → P s → P (f s b)) →
      (∀ s, P s → R (f s a)) →
      (∀ s b, b ∈ l → R s → R (f s b)) → R (l.foldl f s) := by
  intro l
  induction l with
  | nil => intro s ha _ _ _ _; cases ha
  | cons c rest ih =>
    intro s ha hP hPstep hRa hRstep
    rcases List.mem_cons.mp ha with h | h
    · subst h
      exact foldl_preserve R f rest (f s a) (hRa s hP)
        (fun s b hb => hRstep s b (List.mem_cons_of_mem _ hb))
    · exact ih (f s c) h (hPstep s c (List.mem_cons_self _ _) hP)
        (fun s b hb => hPstep s b (List.mem_cons_of_mem _ hb)) hRa
        (fun s b hb => hRstep s b (List.mem_cons_of_mem _ hb))

/-! ### Phase lemmas: key presence is preserved by every phase -/

theorem presence_registerSkills (env : LoadEnv) (aid : Option Nat) (st : ToolState)
    (k : String) (h : (getTool st.tools k).isSome = true) :
    (getTool (registerSkills env aid st).tools k).isSome = true := by
  refine foldl_preserve (fun st => (getTool st.tools k).isSome = true) _ _ st h ?_
  intro st s _ hst
  by_cases hall : skillAllowed env aid s
  · simp only [hall, if_pos]
    exact isSome_getTool_setTool hst _ _
  · simpa [hall] using hst

theorem presence_registerMcpToolsForServer (m : McpServer) (st : ToolState)
    (names : List String) (k : String) (h : (getTool st.tools k).isSome = true) :
    (getTool (registerMcpToolsForServer m st names).tools k).isSome = true := by
  refine foldl_preserve (fun st => (getTool st.tools k).isSome = true) _ _ st h ?_
  intro st tn _ hst
  exact isSome_getTool_setTool hst _ _

theorem presence_registerMcp (env : LoadEnv) (aid : Option Nat) (st : ToolState)
    (k : String) (h : (getTool st.tools k).isSome = true) :
    (getTool (registerMcp env aid st).tools k).isSome = true := by
  refine foldl_preserve (fun st => (getTool st.tools k).isSome = true) _ _ st h ?_
  intro st m _ hst
  cases hu : m.url with
  | none => simpa [hu] using hst
  | some u =>
    simp only [hu]
    by_cases hall : mcpAllowed env aid m
    · simp only [hall, if_pos]
      cases hd : env.discovery m.mid with
      | none => exact hst
      | some names => exact presence_registerMcpToolsForServer m st names k hst
    · simpa [hall] using hst

theorem presence_registerBuiltins (st : ToolState) (k : String)
    (h : (getTool st.tools k).isSome = true) :
    (getTool (registerBuiltins st).tools k).isSome = true := by
  unfold registerBuiltins
  generalize builtinToolNames = l
  refine foldl_preserve (fun st => (getTool st.tools k).isSome = true)
    (fun st n => { st with tools := setTool st.tools n (ToolVal.builtin n) })
    l st h ?_
  intro st n _ hst
  exact isSome_getTool_setTool hst _ _

theorem presence_registerPeers (env : LoadEnv) (aid : Option Nat) (st : ToolState)
    (k : String) (h : (getTool st.tools k).isSome = true) :
    (getTool (registerPeers env aid st).tools k).isSome = true := by
  cases aid with
  | none => exact h
  | some a =>
    refine foldl_preserve (fun st => (getTool st.tools k).isSome = true) _ _ st h ?_
    intro st p _ hst
    exact isSome_getTool_setTool hst _ _

/-! ### Phase lemmas: establishing registrations -/

theorem registerSkills_establish (env : LoadEnv) (aid : Option Nat) (st : ToolState)
    (s : Skill) (hs : s ∈ getActiveApproved env.skillsDb)
    (hall : skillAllowed env aid s = true) :
    (getTool (registerSkills env aid st).tools (sanitizeToolName s.name)).isSome = true := by
  refine foldl_establish (fun st => (getTool st.tools (sanitizeToolName s.name)).isSome = true)
    _ s _ st hs ?_ ?_
  · intro st
    simp only [hall, if_pos]
    exact isSome_getTool_setTool_self _ _ _
  · intro st b _ hst
    by_cases hb : skillAllowed env aid b
    · simp only [hb, if_pos]
      exact isSome_getTool_setTool hst _ _
    · simpa [hb] using hst

theorem registerMcpToolsForServer_establish (m : McpServer) (st : ToolState)
    (names : List String) (tn : String) (htn : tn ∈ names) :
    (getTool (registerMcpToolsForServer m st names).tools (sanitizeToolName tn)).isSome = true := by
  refine foldl_establish (fun st => (getTool st.tools (sanitizeToolName tn)).isSome = true)
    _ tn _ st htn ?_ ?_
  · intro st
    exact isSome_getTool_setTool_self _ _ _
  · intro st b _ hst
    exact isSome_getTool_setTool hst _ _

theorem registerMcp_establish (env : LoadEnv) (aid : Option Nat) (st : ToolState)
    (m : McpServer) (hm : m ∈ getEnabledApproved env.mcpDb) (u : String)
    (hu : m.url = some u) (hall : mcpAllowed env aid m = true)
    (names : List String) (hd : env.discovery m.mid = some names)
    (tn : String) (htn : tn ∈ names) :
    (getTool (registerMcp env aid st).tools (sanitizeToolName tn)).isSome = true := by
  refine foldl_establish (fun st => (getTool st.tools (sanitizeToolName tn)).isSome = true)
    _ m _ st hm ?_ ?_
  · intro st
    simp only [hu, hall, if_pos, hd]
    exact registerMcpToolsForServer_establish m st names tn htn
  · intro st b _ hst
    cases hub : b.url with
    | none => simpa [hub] using hst
    | some u' =>
      simp only [hub]
      by_cases hb : mcpAllowed env aid b
      · simp only [hb, if_pos]
        cases hdb : env.discovery b.mid with
        | none => exact hst
        | some names' => exact presence_registerMcpToolsForServer b st names' _ hst
      · simpa [hb] using hst

/-! ### Phase lemmas: what each phase leaves untouched -/

theorem registerSkills_conflicts (env : LoadEnv) (aid : Option Nat) (st : ToolState) :
    (registerSkills env aid st).conflicts = st.conflicts := by
  refine foldl_preserve (fun st' => st'.conflicts = st.conflicts) _ _ st rfl ?_
  intro st' s _ h
  by_cases hall : skillAllowed env aid s <;> simp [hall, h]

theorem registerBuiltins_conflicts (st : ToolState) :
    (registerBuiltins st).conflicts = st.conflicts := by
  unfold registerBuiltins
  refine foldl_preserve (fun st' => st'.conflicts = st.conflicts)
    (fun st n => { st with tools := setTool st.tools n (ToolVal.builtin n) })
    builtinToolNames st rfl ?_
  intro st' n _ h
  simpa using h

theorem registerPeers_conflicts (env : LoadEnv) (aid : Option Nat) (st : ToolState) :
    (registerPeers env aid st).conflicts = st.conflicts := by
  cases aid with
  | none => rfl
  | some a =>
    refine foldl_preserve (fun st' => st'.conflicts = st.conflicts) _ _ st rfl ?_
    intro st' p _ h
    simpa using h

theorem registerBuiltins_getTool_of_not_builtin (st : ToolState) (k : String)
    (hk : k ∉ builtinToolNames) :
    getTool (registerBuiltins st).tools k = getTool st.tools k := by
  unfold registerBuiltins
  refine foldl_preserve (fun st' => getTool st'.tools k = getTool st.tools k)
    (fun st n => { st with tools := setTool st.tools n (ToolVal.builtin n) })
    builtinToolNames st rfl ?_
  intro st' n hn h
  have hnk : ¬ k = n := fun hh => hk (hh ▸ hn)
  simp only [getTool_setTool, if_neg hnk]
  exact h

theorem registerPeers_getTool_of_not_peer (env : LoadEnv) (aid : Option Nat)
    (st : ToolState) (k : String)
    (hk : ∀ p ∈ env.agents, peerToolKey p.name ≠ k) :
    getTool (registerPeers env aid st).tools k = getTool st.tools k := by
  cases aid with
  | none => rfl
  | some a =>
    refine foldl_preserve (fun st' => getTool st'.tools k = getTool st.tools k) _ _ st rfl ?_
    intro st' p hp h
    have hpk : ¬ k = peerToolKey p.name :=
      fun hh => hk p (List.mem_filter.mp hp).1 hh.symm
    simp only [getTool_setTool, if_neg hpk]
    exact h

/-! ### Phase lemmas: filters -/

theorem mem_getActiveApproved {db : List Skill} {s : Skill} (hs : s ∈ db)
    (ha : s.approved = true) (hst : s.status = SkillStatus.active) :
    s ∈ getActiveApproved db :=
  List.mem_filter.mpr ⟨hs, by rw [ha, hst]; rfl⟩

theorem mem_getEnabledApproved {db : List McpServer} {m : McpServer} (hm : m ∈ db)
    (he : m.enabled = true) (ha : m.approved = true) :
    m ∈ getEnabledApproved db :=
  List.mem_filter.mpr ⟨hm, by rw [he, ha]; rfl⟩

/-! ### Phase lemmas: agent scoping (claim C3) -/

/-- A tool value respects the scope of agent `a`: skill tools come from
assigned skills, MCP tools from assigned servers (built-in and peer tools are
unconstrained). -/
def scopedOk (env : LoadEnv) (a : Nat) (v : ToolVal) : Prop :=
  (∀ s, v = ToolVal.skillTool s → (env.assignedSkillIds a).contains s.sid = true) ∧
  (∀ mid tn, v = ToolVal.mcpTool mid tn → (env.assignedMcpIds a).contains mid = true)

/-- Every value in the tool object respects the scope of agent `a`. -/
def allScoped (env : LoadEnv) (a : Nat) (st : ToolState) : Prop :=
  ∀ k v, getTool st.tools k = some v → scopedOk env a v

theorem allScoped_setTool {env : LoadEnv} {a : Nat} {st : ToolState}
    (h : allScoped env a st) (k : String) (v : ToolVal) (hv : scopedOk env a v) :
    allScoped env a { st with tools := setTool st.tools k v } := by
  intro k' v' hget
  simp only [getTool_setTool] at hget
  by_cases hk : k' = k
  · rw [if_pos hk] at hget
    cases hget
    exact hv
  · rw [if_neg hk] at hget
    exact h k' v' hget

theorem allScoped_registerSkills (env : LoadEnv) (a : Nat) (st : ToolState)
    (h : allScoped env a st) :
    allScoped env a (registerSkills env (some a) st) := by
  refine foldl_preserve (allScoped env a) _ _ st h ?_
  intro st s _ hst
  by_cases hall : skillAllowed env (some a) s
  · simp only [hall, if_pos]
    refine allScoped_setTool hst _ _ ⟨?_, ?_⟩
    · intro s' hs'
      cases hs'
      exact hall
    · intro mid tn hv
      cases hv
  · simpa [hall] using hst

theorem allScoped_registerMcpToolsForServer (env : LoadEnv) (a : Nat) (m : McpServer)
    (st : ToolState) (names : List String)
    (hm : (env.assignedMcpIds a).contains m.mid = true) (h : allScoped env a st) :
    allScoped env a (registerMcpToolsForServer m st names) := by
  refine foldl_preserve (allScoped env a) _ _ st h ?_
  intro st tn _ hst
  refine allScoped_setTool hst _ _ ⟨?_, ?_⟩
  · intro s' hs'
    cases hs'
  · intro mid tn' hv
    cases hv
    exact hm

theorem allScoped_registerMcp (env : LoadEnv) (a : Nat) (st : ToolState)
    (h : allScoped env a st) :
    allScoped env a (registerMcp env (some a) st) := by
  refine foldl_preserve (allScoped env a) _ _ st h ?_
  intro st m _ hst
  cases hu : m.url with
  | none => exact hst
  | some u =>
    simp only [hu]
    by_cases hall : mcpAllowed env (some a) m
    · simp only [hall, if_pos]
      cases hd : env.discovery m.mid with
      | none => exact hst
      | some names => exact allScoped_registerMcpToolsForServer env a m st names hall hst
    · simpa [hall] using hst

theorem allScoped_registerBuiltins (env : LoadEnv) (a : Nat) (st : ToolState)
    (h : allScoped env a st) :
    allScoped env a (registerBuiltins st) := by
  unfold registerBuiltins
  generalize builtinToolNames = l
  refine foldl_preserve (allScoped env a)
    (fun st n => { st with tools := setTool st.tools n (ToolVal.builtin n) }) l st h ?_
  intro st n _ hst
  refine allScoped_setTool hst _ _ ⟨?_, ?_⟩
  · intro s' hs'; cases hs'
  · intro mid tn hv; cases hv

theorem allScoped_registerPeers (env : LoadEnv) (a : Nat) (aid : Option Nat)
    (st : ToolState) (h : allScoped env a st) :
    allScoped env a (registerPeers env aid st) := by
  cases aid with
  | none => exact h
  | some a' =>
    refine foldl_preserve (allScoped env a) _ _ st h ?_
    intro st p _ hst
    refine allScoped_setTool hst _ _ ⟨?_, ?_⟩
    · intro s' hs'; cases hs'
    · intro mid tn hv; cases hv

/-! ### Phase lemmas: MCP tools win collisions and the conflict is logged
(claim C5) -/

/-- At key `k` the tool object holds an MCP-provided tool, and `k` has been
reported as a conflict. -/
def mcpWinsAt (k : String) (st : ToolState) : Prop :=
  (∃ mid tn, getTool st.tools k = some (ToolVal.mcpTool mid tn)) ∧ k ∈ st.conflicts

theorem mcpWinsAt_step (k : String) (m : McpServer) (st : ToolState) (tn : String)
    (h : mcpWinsAt k st) :
    mcpWinsAt k
      { tools := setTool st.tools (sanitizeToolName tn) (ToolVal.mcpTool m.mid tn),
        conflicts :=
          if (getTool st.tools (sanitizeToolName tn)).isSome then st.conflicts ++ [sanitizeToolName tn]
          else st.conflicts } := by
  obtain ⟨⟨mid0, tn0, hget⟩, hconf⟩ := h
  constructor
  · by_cases hk : k = sanitizeToolName tn
    · exact ⟨m.mid, tn, by simp [getTool_setTool, hk]⟩
    · exact ⟨mid0, tn0, by rw [getTool_setTool, if_neg hk]; exact hget⟩
  · by_cases hp : (getTool st.tools (sanitizeToolName tn)).isSome
    · simp only [hp, if_pos]
      exact List.mem_append_left _ hconf
    · simpa [hp] using hconf

theorem mcpWinsAt_registerMcpToolsForServer (k : String) (m : McpServer)
    (st : ToolState) (names : List String) (h : mcpWinsAt k st) :
    mcpWinsAt k (registerMcpToolsForServer m st names) := by
  refine foldl_preserve (mcpWinsAt k) _ _ st h ?_
  intro st tn _ hst
  exact mcpWinsAt_step k m st tn hst

theorem mcpWinsAt_establish_inner (m : McpServer) (st : ToolState)
    (names : List String) (tn : String) (htn : tn ∈ names)
    (hpres : (getTool st.tools (sanitizeToolName tn)).isSome = true) :
    mcpWinsAt (sanitizeToolName tn) (registerMcpToolsForServer m st names) := by
  refine foldl_mem_establish
    (fun st => (getTool st.tools (sanitizeToolName tn)).isSome = true)
    (mcpWinsAt (sanitizeToolName tn)) _ tn _ st htn hpres ?_ ?_ ?_
  · intro st b _ hst
    exact isSome_getTool_setTool hst _ _
  · intro st hst
    constructor
    · exact ⟨m.mid, tn, by simp [getTool_setTool]⟩
    · simp only [hst, if_pos]
      exact List.mem_append_right _ (List.mem_singleton_self _)
  · intro st b _ hst
    exact mcpWinsAt_step _ m st b hst

theorem mcpWinsAt_registerMcp (env : LoadEnv) (aid : Option Nat) (st : ToolState)
    (m : McpServer) (hm : m ∈ getEnabledApproved env.mcpDb) (u : String)
    (hu : m.url = some u) (hall : mcpAllowed env aid m = true)
    (names : List String) (hd : env.discovery m.mid = some names)
    (tn : String) (htn : tn ∈ names)
    (hpres : (getTool st.tools (sanitizeToolName tn)).isSome = true) :
    mcpWinsAt (sanitizeToolName tn) (registerMcp env aid st) := by
  refine foldl_mem_establish
    (fun st => (getTool st.tools (sanitizeToolName tn)).isSome = true)
    (mcpWinsAt (sanitizeToolName tn)) _ m _ st hm hpres ?_ ?_ ?_
  · intro st b _ hst
    cases hub : b.url with
    | none => exact hst
    | some u' =>
      simp only [hub]
      by_cases hb : mcpAllowed env aid b
      · simp only [hb, if_pos]
        cases hdb : env.discovery b.mid with
        | none => exact hst
        | some names' => exact presence_registerMcpToolsForServer b st names' _ hst
      · simpa [hb] using hst
  · intro st hst
    simp only [hu, hall, if_pos, hd]
    exact mcpWinsAt_establish_inner m st names tn htn hst
  · intro st b _ hst
    cases hub : b.url with
    | none => exact hst
    | some u' =>
      simp only [hub]
      by_cases hb : mcpAllowed env aid b
      · simp only [hb, if_pos]
        cases hdb : env.discovery b.mid with
        | none => exact hst
        | some names' => exact mcpWinsAt_registerMcpToolsForServer _ b st names' hst
      · simpa [hb] using hst

/-! ## Concrete environments used as witnesses / counterexamples -/

/-- An enabled, approved MCP server without a URL (the schema allows
command-based servers); discovery would succeed if it were consulted. -/
def envUrllessServer : LoadEnv :=
  { skillsDb := [],
    mcpDb := [{ mid := 0, name := "local", url := none, enabled := true, approved := true }],
    discovery := fun _ => some ["ping"],
    assignedSkillIds := fun _ => [],
    assignedMcpIds := fun _ => [],
    agents := [] }

/-- A skill and an MCP tool that both sanitize to the name of the built-in
`web_fetch` tool. -/
def envShadowedName : LoadEnv :=
  { skillsDb := [{ sid := 1, name := "web_fetch", skillType := SkillType.webhook,
                   status := SkillStatus.active, approved := true }],
    mcpDb := [{ mid := 2, name := "srv", url := some "https://mcp.example.test",
                enabled := true, approved := true }],
    discovery := fun _ => some ["web_fetch"],
    assignedSkillIds := fun _ => [],
    assignedMcpIds := fun _ => [],
    agents := [] }

/-- A sample approved active skill. -/
def skillAlpha : Skill :=
  { sid := 7, name := "alpha skill", skillType := SkillType.template,
    status := SkillStatus.active, approved := true }

/-- A sample enabled approved MCP server with a URL. -/
def serverW : McpServer :=
  { mid := 3, name := "srv", url := some "https://example.test/mcp",
    enabled := true, approved := true }

/-- One assigned skill and one assigned MCP server, for scoping witnesses. -/
def envScopeW : LoadEnv :=
  { skillsDb := [skillAlpha],
    mcpDb := [serverW],
    discovery := fun _ => some ["do-thing"],
    assignedSkillIds := fun _ => [7],
    assignedMcpIds := fun _ => [3],
    agents := [] }

/-- A sample skill whose name collides, after sanitization, with an MCP tool
name. -/
def skillFetchData : Skill :=
  { sid := 4, name := "fetch data", skillType := SkillType.template,
    status := SkillStatus.active, approved := true }

/-- A sample server whose discovery yields a tool colliding with
`skillFetchData`. -/
def serverCollide : McpServer :=
  { mid := 5, name := "srv", url := some "https://example.test/mcp",
    enabled := true, approved := true }

/-- A skill and an MCP tool whose names sanitize to the same key, away from
any built-in name. -/
def envCollideW : LoadEnv :=
  { skillsDb := [skillFetchData],
    mcpDb := [serverCollide],
    discovery := fun _ => some ["fetch*data"],
    assignedSkillIds := fun _ => [],
    assignedMcpIds := fun _ => [],
    agents := [] }

theorem isAllowedChar_replaceDisallowed (c : Char) :
    isAllowedChar (replaceDisallowed c) = true := by
  unfold replaceDisallowed
  by_cases h : isAllowedChar c = true
  · rw [if_pos h]; exact h
  · rw [if_neg h]; decide

/-! ## Claim C4: name sanitization -/

/-- C4 counterexample: repeated hyphens — runs of the separator character
`-` — survive sanitization unchanged, so "runs of repeated separator
characters are collapsed to a single one" fails as stated: only underscore
runs are collapsed. -/
theorem sanitizeToolName_preserves_hyphen_runs :
    sanitizeToolName "a--b" = "a--b" ∧
    noRepeatedSeparator (sanitizeToolName "a--b").data = false := by
  exact ⟨rfl, rfl⟩

/-- C4 (amended): for every skill or MCP tool name, the registration key
produced by `sanitizeToolName` contains only alphanumerics, underscores and
hyphens, has length at most 128, and contains no run of repeated
underscores (hyphen runs are preserved). -/
theorem sanitizeToolName_charset_collapse_truncation (name : String) :
    (sanitizeToolName name).data.all isAllowedChar = true ∧
    (sanitizeToolName name).length ≤ 128 ∧
    noDoubleUnderscore (sanitizeToolName name).data = true := by
  refine ⟨?_, ?_, ?_⟩
  · rw [List.all_eq_true]
    intro c hc
    have hc1 : c ∈ collapseUnderscoreRuns (name.data.map replaceDisallowed) :=
      List.take_subset _ _ hc
    have hc2 : c ∈ name.data.map replaceDisallowed := mem_collapseUnderscoreRuns hc1
    obtain ⟨c0, _, hc0⟩ := List.mem_map.mp hc2
    subst hc0
    exact isAllowedChar_replaceDisallowed c0
  · show (List.take 128 (collapseUnderscoreRuns (name.data.map replaceDisallowed))).length ≤ 128
    exact List.length_take_le _ _
  · exact noDoubleUnderscore_take _
      (noDoubleUnderscore_collapseUnderscoreRuns (name.data.map replaceDisallowed)) 128

/-! ## Claim C3: agent scoping of the loaded tool set -/

/-- C3 counterexample: an enabled, approved MCP server with no URL is
skipped by `loadTools`, so without an agent identifier it is *not* loaded
even though it is approved and enabled (its discovery would have returned a
tool named "ping"). -/
theorem loadTools_skips_urlless_server :
    (envUrllessServer.mcpDb.all (fun m => m.enabled && m.approved)) = true ∧
    envUrllessServer.discovery 0 = some ["ping"] ∧
    ((loadTools envUrllessServer none).tools.all (fun p => !(p.2.isMcp))) = true := by
  exact ⟨rfl, rfl, rfl⟩

/-- C3 (amended): with an agent identifier, every skill tool and every
MCP tool in the returned tool set comes from a skill (resp. MCP server)
assigned to that agent; without one, every approved-and-active skill is
registered under its sanitized name, and every approved-and-enabled MCP
server that has a URL and whose discovery succeeds has each discovered tool
registered under its sanitized name. -/
theorem loadTools_scoping :
    (∀ (env : LoadEnv) (a : Nat) (k : String) (v : ToolVal),
       getTool (loadTools env (some a)).tools k = some v →
       (∀ s, v = ToolVal.skillTool s → (env.assignedSkillIds a).contains s.sid = true) ∧
       (∀ mid tn, v = ToolVal.mcpTool mid tn → (env.assignedMcpIds a).contains mid = true)) ∧
    (∀ (env : LoadEnv) (s : Skill), s ∈ env.skillsDb → s.approved = true →
       s.status = SkillStatus.active →
       (getTool (loadTools env none).tools (sanitizeToolName s.name)).isSome = true) ∧
    (∀ (env : LoadEnv) (m : McpServer) (u : String) (names : List String) (tn : String),
       m ∈ env.mcpDb → m.enabled = true → m.approved = true → m.url = some u →
       env.discovery m.mid = some names → tn ∈ names →
       (getTool (loadTools env none).tools (sanitizeToolName tn)).isSome = true) := by
  refine ⟨?_, ?_, ?_⟩
  · intro env a k v hget
    have hbase : allScoped env a { tools := [], conflicts := [] } := by
      intro k' v' h
      simp [getTool] at h
    have h1 := allScoped_registerSkills env a _ hbase
    have h2 := allScoped_registerMcp env a _ h1
    have h3 := allScoped_registerBuiltins env a _ h2
    have h4 := allScoped_registerPeers env a (some a) _ h3
    exact h4 k v hget
  · intro env s hs hap hact
    have h1 := registerSkills_establish env none { tools := [], conflicts := [] } s
      (mem_getActiveApproved hs hap hact) rfl
    have h2 := presence_registerMcp env none _ _ h1
    have h3 := presence_registerBuiltins _ _ h2
    exact presence_registerPeers env none _ _ h3
  · intro env m u names tn hm hen hap hu hd htn
    have h1 := registerMcp_establish env none (registerSkills env none
        { tools := [], conflicts := [] }) m
      (mem_getEnabledApproved hm hen hap) u hu rfl names hd tn htn
    have h2 := presence_registerBuiltins _ _ h1
    exact presence_registerPeers env none _ _ h2

/-- C3 witness: on a concrete environment, the assigned skill and the
assigned server's tool are present, and a skill tool found in a scoped run
comes from an assigned skill. -/
theorem loadTools_scoping_witness :
    (getTool (loadTools envScopeW none).tools (sanitizeToolName "alpha skill")).isSome = true ∧
    (getTool (loadTools envScopeW none).tools (sanitizeToolName "do-thing")).isSome = true ∧
    (envScopeW.assignedSkillIds 5).contains 7 = true := by
  refine ⟨?_, ?_, ?_⟩
  · exact loadTools_scoping.2.1 envScopeW skillAlpha (List.mem_cons_self _ _) rfl rfl
  · exact loadTools_scoping.2.2 envScopeW serverW
      "https://example.test/mcp" ["do-thing"] "do-thing"
      (List.mem_cons_self _ _) rfl rfl rfl rfl (List.mem_cons_self _ _)
  · exact (loadTools_scoping.1 envScopeW 5 (sanitizeToolName "alpha skill")
      (ToolVal.skillTool skillAlpha) rfl).1 _ rfl

/-! ## Claim C5: skill/MCP name collisions -/

/-- C5 counterexample: a skill named `web_fetch` and an MCP tool named
`web_fetch` collide; the MCP tool wins that collision and the conflict is
logged, but the *final* tool set maps `web_fetch` to the built-in web-fetch
tool registered afterwards, not to the MCP-provided tool. -/
theorem builtin_shadows_mcp_collision :
    sanitizeToolName "web_fetch" = "web_fetch" ∧
    (loadTools envShadowedName none).conflicts = ["web_fetch"] ∧
    getTool (loadTools envShadowedName none).tools "web_fetch"
      = some (ToolVal.builtin "web_fetch") := by
  exact ⟨rfl, rfl, rfl⟩

/-- C5 (amended): when a skill and a discovered MCP tool sanitize to the
same name, the tool set resolves the collision in favour of the MCP-provided
tool and the conflict is logged — provided the name is not also one of the
built-in tool names or peer-agent tool names registered after the MCP phase,
which take final precedence. -/
theorem mcp_wins_skill_collision
    (env : LoadEnv) (aid : Option Nat) (s : Skill) (m : McpServer) (u tn : String)
    (names : List String)
    (hs : s ∈ env.skillsDb) (hap : s.approved = true) (hact : s.status = SkillStatus.active)
    (hsall : skillAllowed env aid s = true)
    (hm : m ∈ env.mcpDb) (hen : m.enabled = true) (hmap : m.approved = true)
    (hu : m.url = some u) (hmall : mcpAllowed env aid m = true)
    (hd : env.discovery m.mid = some names) (htn : tn ∈ names)
    (hcollide : sanitizeToolName tn = sanitizeToolName s.name)
    (hnb : sanitizeToolName tn ∉ builtinToolNames)
    (hnp : ∀ p ∈ env.agents, peerToolKey p.name ≠ sanitizeToolName tn) :
    (∃ mid tn', getTool (loadTools env aid).tools (sanitizeToolName tn)
        = some (ToolVal.mcpTool mid tn')) ∧
    sanitizeToolName tn ∈ (loadTools env aid).conflicts := by
  have hpres : (getTool (registerSkills env aid { tools := [], conflicts := [] }).tools
      (sanitizeToolName tn)).isSome = true := by
    rw [hcollide]
    exact registerSkills_establish env aid _ s (mem_getActiveApproved hs hap hact) hsall
  have hwin := mcpWinsAt_registerMcp env aid _ m
    (mem_getEnabledApproved hm hen hmap) u hu hmall names hd tn htn hpres
  obtain ⟨⟨mid, tn', hget⟩, hconf⟩ := hwin
  constructor
  · refine ⟨mid, tn', ?_⟩
    show getTool (registerPeers env aid (registerBuiltins (registerMcp env aid
      (registerSkills env aid { tools := [], conflicts := [] })))).tools
        (sanitizeToolName tn) = some (ToolVal.mcpTool mid tn')
    rw [registerPeers_getTool_of_not_peer env aid _ _ hnp,
      registerBuiltins_getTool_of_not_builtin _ _ hnb]
    exact hget
  · show sanitizeToolName tn ∈ (registerPeers env aid (registerBuiltins (registerMcp env aid
      (registerSkills env aid { tools := [], conflicts := [] })))).conflicts
    rw [registerPeers_conflicts, registerBuiltins_conflicts]
    exact hconf

/-- C5 witness: a concrete collision (`"fetch data"` vs `"fetch*data"`, both
sanitizing to `fetch_data`) resolved in favour of the MCP tool, with the
conflict logged. -/
theorem mcp_wins_skill_collision_witness :
    (∃ mid tn', getTool (loadTools envCollideW none).tools (sanitizeToolName "fetch*data")
        = some (ToolVal.mcpTool mid tn')) ∧
    sanitizeToolName "fetch*data" ∈ (loadTools envCollideW none).conflicts := by
  refine mcp_wins_skill_collision envCollideW none skillFetchData serverCollide
    "https://example.test/mcp" "fetch*data" ["fetch*data"]
    (List.mem_cons_self _ _) rfl rfl rfl
    (List.mem_cons_self _ _) rfl rfl rfl rfl rfl (List.mem_cons_self _ _) rfl
    (by decide) ?_
  intro p hp
  exact absurd hp (List.not_mem_nil p)

/-! ## Security check, audit log and the skill handlers
(from `toolLoader.ts`: `createTemplateSkillTool`, `createWebhookSkillTool`,
`createCodeSkillTool`, `logInvocation`) -/

/-- The result of `checkSecurity` (`security.ts`, whose implementation is
not among the provided sources): the handlers only read `allowed`, `reason`
and `code`, so the result is passed into the embedded handlers as a value. -/
structure SecurityResult where
  allowed : Bool
  code : String
  reason : String
deriving DecidableEq, Repr

/-- A `skillInvocationLog` row as written by `logInvocation`. -/
structure LogRecord where
  skillName : String
  skillType : SkillType
  input : String
  output : Option String
  success : Bool
  errorMessage : Option String
  securityCheckResult : String
  durationMs : Int
  timestamp : Int
deriving DecidableEq, Repr

/-- The observable effects of one tool-handler run, in order. -/
inductive Step where
  | securityCheck (code : String)
  | execute (target : String)
  | logWrite (rec : LogRecord)
deriving DecidableEq, Repr

def Step.isSecurityCheck : Step → Bool
  | .securityCheck _ => true
  | _ => false

def Step.isExecute : Step → Bool
  | .execute _ => true
  | _ => false

def Step.isLogWrite : Step → Bool
  | .logWrite _ => true
  | _ => false

def logsOfSteps (steps : List Step) : List LogRecord :=
  steps.filterMap fun s =>
    match s with
    | .logWrite r => some r
    | _ => none

def logTruncateLimit : Nat := 1000

/-- Modelled from the spec: `truncateForLog` (`security.ts`, not among the
provided sources) truncates a value for the audit log to a fixed maximum
length. -/
def truncateForLog (s : String) : String := s.take logTruncateLimit

/-- `logInvocation`: the single audit record written per skill call.
`output ? truncateForLog(output) : undefined` makes a JS-falsy output (for
string outputs: the empty string) log as absent. -/
def logInvocation (skill : Skill) (input : String) (output : Option String)
    (success : Bool) (sec : SecurityResult) (startTime now : Int)
    (errorMessage : Option String) : LogRecord :=
  { skillName := skill.name
    skillType := skill.skillType
    input := truncateForLog input
    output := output.bind fun o => if o = "" then none else some (truncateForLog o)
    success := success
    errorMessage := errorMessage
    securityCheckResult := sec.code
    durationMs := now - startTime
    timestamp := now }

/-- A handler run: the value returned to the model plus the effect trace.
`Except.error` is the `{ error: ... }` object the handler returns. -/
structure HandlerRun where
  result : Except String String
  steps : List Step

/-- `createTemplateSkillTool`'s handler.  `sec` is the `checkSecurity`
result; `exec` the outcome of the `templates.execute` action (`.error` when
it throws); `startTime`/`now` the two clock reads. -/
def runTemplateSkill (skill : Skill) (sec : SecurityResult) (exec : Except String String)
    (input : String) (startTime now : Int) : HandlerRun :=
  if sec.allowed then
    match exec with
    | .ok r =>
      { result := .ok r
        steps := [Step.securityCheck sec.code, Step.execute "template",
                  Step.logWrite (logInvocation skill input (some r) true sec startTime now none)] }
    | .error e =>
      { result := .error e
        steps := [Step.securityCheck sec.code, Step.execute "template",
                  Step.logWrite (logInvocation skill input none false sec startTime now (some e))] }
  else
    { result := .error sec.reason
      steps := [Step.securityCheck sec.code,
                Step.logWrite (logInvocation skill input none false sec startTime now none)] }

/-- What a webhook handler run can end in: the config-parsing prelude can
throw before anything else happens, otherwise the handler returns a value or
an `{ error: ... }` object. -/
inductive WebhookResult where
  | thrown (msg : String)
  | returned (r : Except String String)

structure WebhookRun where
  result : WebhookResult
  steps : List Step

/-- `createWebhookSkillTool`'s handler.  Before the security check it runs
`JSON.parse(skill.config)` and, when the parsed config has a `url`,
`new URL(config.url).hostname` — both outside any try/catch, so either can
throw.  `configParse` is the outcome of that prelude: `.error` is a throw
(the handler aborts with no security check and no audit record), `.ok d` is
success with the optional domain `d`.  The domain only feeds into
`checkSecurity`, which is already summarized by `sec`. -/
def runWebhookSkill (skill : Skill) (configParse : Except String (Option String))
    (sec : SecurityResult) (exec : Except String String)
    (input : String) (startTime now : Int) : WebhookRun :=
  match configParse with
  | .error m => { result := .thrown m, steps := [] }
  | .ok _ =>
    if sec.allowed then
      match exec with
      | .ok r =>
        { result := .returned (.ok r)
          steps := [Step.securityCheck sec.code, Step.execute "webhook",
                    Step.logWrite (logInvocation skill input (some r) true sec startTime now none)] }
      | .error e =>
        { result := .returned (.error e)
          steps := [Step.securityCheck sec.code, Step.execute "webhook",
                    Step.logWrite (logInvocation skill input none false sec startTime now (some e))] }
    else
      { result := .returned (.error sec.reason)
        steps := [Step.securityCheck sec.code,
                  Step.logWrite (logInvocation skill input none false sec startTime now none)] }

/-- The string a code skill returns. -/
def codeSkillResult (skill : Skill) (query : String) : String :=
  "Code skill \"" ++ skill.name ++ "\" executed with query: " ++ query

/-- `createCodeSkillTool`'s handler (its body cannot throw). -/
def runCodeSkill (skill : Skill) (sec : SecurityResult) (query : String)
    (startTime now : Int) : HandlerRun :=
  if sec.allowed then
    { result := .ok (codeSkillResult skill query)
      steps := [Step.securityCheck sec.code, Step.execute "code",
                Step.logWrite (logInvocation skill query (some (codeSkillResult skill query))
                  true sec startTime now none)] }
  else
    { result := .error sec.reason
      steps := [Step.securityCheck sec.code,
                Step.logWrite (logInvocation skill query none false sec startTime now none)] }

/-! ## Minimal JSON values and the SSE `data:` extraction
(from `toolLoader.ts`: body parsing of the MCP discovery and call paths) -/

inductive JsonV where
  | null
  | bool (b : Bool)
  | num (n : Int)
  | str (s : String)
  | arr (elems : List JsonV)
  | obj (fields : List (String × JsonV))

def JsonV.getField : JsonV → String → Option JsonV
  | .obj fields, k => (fields.find? fun p => p.1 == k).map (·.2)
  | _, _ => none

/-- `data.result ?? data.output ?? data.content ?? data` selection of
`createMcpTool`'s handler (a JSON `null` field is still `!== undefined`). -/
def mcpExtract (d : JsonV) : JsonV :=
  match d.getField "result" with
  | some r => r
  | none =>
    match d.getField "output" with
    | some o => o
    | none =>
      match d.getField "content" with
      | some c => c
      | none => d

/-- The portion of a string a JS `.` can match: up to a line terminator. -/
def sseLine (cs : List Char) : List Char :=
  cs.takeWhile fun c => !(c == '\n' || c == '\r')

/-- Index of the last closing brace in a character list. -/
def lastCloseBraceIdx : List Char → Option Nat
  | [] => none
  | c :: rest =>
    match lastCloseBraceIdx rest with
    | some j => some (j + 1)
    | none => if c == '\x7d' then some 0 else none

/-- The greedy capture of `({.+})` starting at an opening brace:
`afterBrace` are the characters after that brace; the capture runs to the
last closing brace on the same line, and needs at least one character
between the braces. -/
def sseCaptureAt (afterBrace : List Char) : Option (List Char) :=
  match lastCloseBraceIdx (sseLine afterBrace) with
  | some j => if 1 ≤ j then some ('\x7b' :: (sseLine afterBrace).take (j + 1)) else none
  | none => none

/-- The first match of the JS regex `/data: ({.+})/`: scan left to right for
`data: ` followed by an opening brace; at each candidate try the greedy
capture, falling through to later candidates when it fails. -/
def sseExtractList : List Char → Option (List Char)
  | [] => none
  | c :: rest =>
    if ("data: \x7b".data).isPrefixOf (c :: rest) then
      match sseCaptureAt ((c :: rest).drop 7) with
      | some cap => some cap
      | none => sseExtractList rest
    else sseExtractList rest

def sseExtract (s : String) : Option String :=
  (sseExtractList s.data).map fun l => String.mk l

/-! ## MCP transports (from `toolLoader.ts`: `loadTools` discovery and
`createMcpTool`) -/

/-- What one `fetch` (plus `response.text()`) can produce: a throw, or a
response with its `ok` flag, status and body text. -/
inductive FetchOutcome where
  | throws (msg : String)
  | resp (ok : Bool) (status : Nat) (body : String)
deriving DecidableEq, Repr

/-- `serverUrl.replace(/\/?$/, '/tools/call')`: drop one trailing slash if
present, then append `/tools/call`. -/
def mcpCallUrl (serverUrl : String) : String :=
  if serverUrl.data.getLast? == some '/' then
    String.mk serverUrl.data.dropLast ++ "/tools/call"
  else serverUrl ++ "/tools/call"

/-- One attempt of `createMcpTool`'s handler against one URL: POST the
JSON-RPC `tools/call`, demand an ok status, then accept a direct JSON body
or an SSE body with an extractable `data:` line. -/
def mcpAttempt (transport : String → FetchOutcome) (parseJson : String → Option JsonV)
    (url : String) : Except String JsonV :=
  match transport url with
  | .throws m => .error m
  | .resp ok status body =>
    if ok then
      match parseJson body with
      | some d => .ok d
      | none =>
        match sseExtract body with
        | some s =>
          match parseJson s with
          | some d => .ok d
          | none => .error "Invalid SSE format"
        | none => .error "Non-JSON response"
    else .error ("HTTP " ++ toString status ++ ": " ++ body.take 200)

/-- The `for (const url of urlsToTry)` loop: stop at the first attempt that
succeeds, keep the last error otherwise.  Returns the result and the list of
URLs actually tried. -/
def mcpTryUrls (attempt : String → Except String JsonV) :
    List String → Option String → Except String JsonV × List String
  | [], lastError => (.error (lastError.getD "All MCP endpoints failed"), [])
  | u :: rest, _ =>
    match attempt u with
    | .ok d => (.ok (mcpExtract d), [u])
    | .error e =>
      let r := mcpTryUrls attempt rest (some e)
      (r.1, u :: r.2)

/-- A full `createMcpTool` handler invocation.  The effect trace contains
only the network executions: the handler calls neither `checkSecurity` nor
`logInvocation`. -/
structure McpCallRun where
  result : Except String JsonV
  attempts : List String
  steps : List Step

def runMcpTool (serverUrl : String) (transport : String → FetchOutcome)
    (parseJson : String → Option JsonV) : McpCallRun :=
  let r := mcpTryUrls (mcpAttempt transport parseJson) [serverUrl, mcpCallUrl serverUrl] none
  { result := r.1, attempts := r.2, steps := r.2.map Step.execute }

/-! ## MCP tool discovery (from `toolLoader.ts`, `loadTools`) -/

/-- A discovery request: the JSON-RPC 2.0 POST (version, method, id) or the
fallback GET. -/
inductive McpRequest where
  | post (url : String) (jsonrpcVersion : String) (rpcMethod : String) (rpcId : Nat)
  | get (url : String)
deriving DecidableEq, Repr

/-- The `tools/list` POST sent first: `{ jsonrpc: '2.0', method:
'tools/list', params: {}, id: 1 }`. -/
def toolsListRequest (url : String) : McpRequest :=
  McpRequest.post url "2.0" "tools/list" 1

inductive DiscoveryOutcome where
  | failed (msg : String)
  | httpError (status : Nat)
  | nonJson
  | parsed (data : JsonV)

structure DiscoveryRun where
  requests : List McpRequest
  outcome : DiscoveryOutcome

/-- Body acceptance of the discovery path: direct JSON, or the JSON of an
SSE `data:` line; an SSE line that fails to parse degrades to
`{ tools: [] }`; anything else is the logged non-JSON skip. -/
def mcpDiscoverBody (parseJson : String → Option JsonV) (body : String) : DiscoveryOutcome :=
  match parseJson body with
  | some d => .parsed d
  | none =>
    match sseExtract body with
    | some s =>
      match parseJson s with
      | some d => .parsed d
      | none => .parsed (JsonV.obj [("tools", JsonV.arr [])])
    | none => .nonJson

/-- The discovery exchange for one server URL: JSON-RPC POST first; when the
POST (or reading its body) throws, one plain GET on the same URL; a throwing
GET lands in the per-server catch. -/
def mcpDiscover (serverUrl : String) (transport : McpRequest → FetchOutcome)
    (parseJson : String → Option JsonV) : DiscoveryRun :=
  match transport (toolsListRequest serverUrl) with
  | .resp ok status body =>
    { requests := [toolsListRequest serverUrl],
      outcome := if ok then mcpDiscoverBody parseJson body else .httpError status }
  | .throws _ =>
    match transport (McpRequest.get serverUrl) with
    | .resp ok status body =>
      { requests := [toolsListRequest serverUrl, McpRequest.get serverUrl],
        outcome := if ok then mcpDiscoverBody parseJson body else .httpError status }
    | .throws m =>
      { requests := [toolsListRequest serverUrl, McpRequest.get serverUrl],
        outcome := .failed m }

/-! ## The chat dispatcher's entry checks (from `chat.ts`, `send`) -/

structure SendArgs where
  threadId : Option String
  message : String
  sessionId : String
deriving DecidableEq, Repr

structure SendResult where
  response : Option String
  error : Option String
  threadId : Option String
deriving DecidableEq, Repr

/-- The effects the `send` handler can perform after its entry checks. -/
inductive ChatEvent where
  | createAgent
  | continueThread (threadId : String)
  | createThread
  | generateText
  | logActivity
deriving DecidableEq, Repr

/-- `chat.send`'s entry: the per-session rate limit, the global rate limit
and the message-length check, each short-circuiting with an error and the
caller's `threadId`; only then does the handler proceed (agent creation,
thread continuation, model invocation — summarized by `proceed`, which
reports its result together with its effect trace). -/
def chatSend (sessionOk globalOk : Bool) (args : SendArgs)
    (proceed : SendResult × List ChatEvent) : SendResult × List ChatEvent :=
  if !sessionOk then
    ({ response := none
       error := some "Rate limit exceeded. Please wait before sending another message."
       threadId := args.threadId }, [])
  else if !globalOk then
    ({ response := none
       error := some "The agent is currently busy. Please try again in a moment."
       threadId := args.threadId }, [])
  else if args.message.length > 4000 then
    ({ response := none
       error := some "Message too long. Maximum 4000 characters."
       threadId := args.threadId }, [])
  else proceed

/-! ## The `web_fetch` tool handler (from `tools/webFetch.ts`,
`createWebFetchTool`) -/

/-- The handler's arguments (defaults: method GET, timeout 30000). -/
structure WebFetchArgs where
  url : String
  method : String
  timeout : Option Int
deriving DecidableEq, Repr

/-- What the handler reads off `new URL(url)`. -/
structure UrlParts where
  protocol : String
deriving DecidableEq, Repr

/-- A network request the handler issues, with the clamped timeout. -/
structure WebFetchRequest where
  url : String
  method : String
  timeoutMs : Int
deriving DecidableEq, Repr

/-- The fields of the handler's result object that the claims concern, plus
the trace of requests issued. -/
structure WebFetchReport where
  success : Bool
  error : Option String
  message : Option String
  requests : List WebFetchRequest
deriving DecidableEq, Repr

/-- The request `web_fetch` issues once validation passes: the effective
timeout is `Math.min(timeout, 60000)` with 30000 as the default. -/
def webFetchRequestOf (args : WebFetchArgs) : WebFetchRequest :=
  { url := args.url, method := args.method,
    timeoutMs := min (args.timeout.getD 30000) 60000 }

/-- `createWebFetchTool`'s handler.  `parseUrl` stands for the host's
`new URL(...)` (`none` = the constructor throws); `doFetch` for the host's
`fetch` under the abort controller (`throws "Request timeout"` standing for
an abort).  URL validation precedes any network activity. -/
def webFetchHandler (parseUrl : String → Option UrlParts)
    (doFetch : WebFetchRequest → FetchOutcome) (args : WebFetchArgs) : WebFetchReport :=
  match parseUrl args.url with
  | none =>
    { success := false, error := some "Invalid URL",
      message := some "Please provide a valid URL.", requests := [] }
  | some u =>
    if u.protocol ≠ "http:" ∧ u.protocol ≠ "https:" then
      { success := false, error := some "Invalid protocol",
        message := some "Only HTTP and HTTPS URLs are supported.", requests := [] }
    else
      match doFetch (webFetchRequestOf args) with
      | .resp ok status _ =>
        { success := ok
          error := if ok then none else some ("HTTP " ++ toString status)
          message := none
          requests := [webFetchRequestOf args] }
      | .throws m =>
        { success := false, error := some m, message := none,
          requests := [webFetchRequestOf args] }

/-! ## Model switching (from `modelSwitching.ts`, `switchModel`) -/

/-- A provider as returned by `getAvailableProviders()` (`modelRouter.ts`,
not among the provided sources); `switchModel` only compares ids. -/
structure ProviderInfo where
  id : String
deriving DecidableEq, Repr

structure AgentConfigRec where
  model : String
  modelProvider : String
deriving DecidableEq, Repr

structure ActivityEntry where
  actionType : String
  summary : String
deriving DecidableEq, Repr

/-- The store `switchModel` can mutate: the `agentConfig` row and the
activity log. -/
structure ConfigState where
  config : Option AgentConfigRec
  activityLog : List ActivityEntry
deriving DecidableEq, Repr

structure SwitchResult where
  success : Bool
  message : String
  previousModel : Option String
  newModel : Option String
deriving DecidableEq, Repr

/-- `switchModel`'s handler: read the current config, validate the provider
against the available providers (rejecting with no mutation), then update
`agentConfig` and append a `model_switch` activity record. -/
def switchModel (providers : List ProviderInfo) (provider model : String)
    (st : ConfigState) : SwitchResult × ConfigState :=
  let previousModel := (st.config.map (·.model)).getD "unknown"
  match providers.find? (fun p => p.id == provider) with
  | none =>
    ({ success := false
       message := "Invalid provider: " ++ provider ++ ". Available: "
         ++ String.intercalate ", " (providers.map (·.id))
       previousModel := none, newModel := none }, st)
  | some _ =>
    ({ success := true
       message := "Successfully switched to " ++ provider ++ "/" ++ model
         ++ ". The next message will use the new model."
       previousModel := some previousModel
       newModel := some model },
     { config := some { model := model, modelProvider := provider }
       activityLog := st.activityLog ++
         [{ actionType := "model_switch"
            summary := "Switched from " ++ previousModel ++ " to " ++ provider ++ "/" ++ model }] })

/-! ## Concrete transports and parsers for witnesses -/

/-- A parser recognizing exactly the demo response body. -/
def demoParseJson : String → Option JsonV := fun s =>
  if s = "\x7b\"result\": \"pong\"\x7d" then some (JsonV.obj [("result", JsonV.str "pong")])
  else none

/-- A transport always answering 200 with the demo body. -/
def demoTransport : String → FetchOutcome := fun _ =>
  FetchOutcome.resp true 200 "\x7b\"result\": \"pong\"\x7d"

/-- A passing security-check result. -/
def secAllow : SecurityResult := { allowed := true, code := "allowed", reason := "" }

/-! ## Claim C1: security check before execution -/

/-- C1 (code bug): an MCP-proxied tool call from the assembled set executes
— it issues the `tools/call` POST and returns the extracted result — yet its
trace contains no security check and no audit-log write, contradicting the
loader's own documentation that all tools pass through the security checker
before execution. -/
theorem mcp_call_executes_without_security_check :
    (runMcpTool "https://mcp.example.com" demoTransport demoParseJson).result
        = Except.ok (JsonV.str "pong") ∧
    (runMcpTool "https://mcp.example.com" demoTransport demoParseJson).steps
        = [Step.execute "https://mcp.example.com"] ∧
    ((runMcpTool "https://mcp.example.com" demoTransport demoParseJson).steps.all
        fun s => !(s.isSecurityCheck)) = true ∧
    logsOfSteps (runMcpTool "https://mcp.example.com" demoTransport demoParseJson).steps
        = [] := by
  exact ⟨rfl, rfl, rfl, rfl⟩

/-! ## Claim C2: exactly one audit record per call -/

/-- C2 counterexample: an MCP-proxied tool call from the assembled set
writes zero audit records, not exactly one. -/
theorem mcp_call_writes_no_audit_record :
    (logsOfSteps (runMcpTool "https://tools.example.org" demoTransport demoParseJson).steps).length
        = 0 ∧
    (runMcpTool "https://tools.example.org" demoTransport demoParseJson).attempts.length = 1 := by
  exact ⟨rfl, rfl⟩

theorem logInvocation_output_truncated (skill : Skill) (input : String)
    (output : Option String) (success : Bool) (sec : SecurityResult)
    (startTime now : Int) (em : Option String) :
    ∀ o, (logInvocation skill input output success sec startTime now em).output = some o →
      ∃ raw, o = truncateForLog raw := by
  intro o ho
  simp only [logInvocation] at ho
  cases output with
  | none => simp at ho
  | some v =>
    by_cases hv : v = ""
    · simp [hv] at ho
    · simp only [Option.bind, if_neg hv] at ho
      exact ⟨v, (Option.some.inj ho).symm⟩

/-- C2 (amended): every template and code skill call writes exactly one
audit record; a webhook skill call writes exactly one audit record provided
its config-parsing prelude (`JSON.parse(skill.config)` / `new URL(config.url)`)
does not throw — when it throws, the call aborts before the security check
and writes no record at all.  Each record written captures the call's
duration in milliseconds, the truncated input, a truncated output when one
is logged, the success flag, and the security result code.  (MCP-proxied and
built-in tool calls bypass this audit log, per the counterexample.) -/
theorem skill_call_logs_exactly_one_record
    (skill : Skill) (sec : SecurityResult) (exec : Except String String)
    (cp : Except String (Option String)) (input query : String) (startTime now : Int) :
    (logsOfSteps (runTemplateSkill skill sec exec input startTime now).steps).length = 1 ∧
    (∀ d, cp = Except.ok d →
      (logsOfSteps (runWebhookSkill skill cp sec exec input startTime now).steps).length = 1) ∧
    (∀ m, cp = Except.error m →
      (runWebhookSkill skill cp sec exec input startTime now).steps = []) ∧
    (logsOfSteps (runCodeSkill skill sec query startTime now).steps).length = 1 ∧
    (∀ r, r ∈ logsOfSteps (runTemplateSkill skill sec exec input startTime now).steps →
      r.durationMs = now - startTime ∧ r.input = truncateForLog input ∧
      r.securityCheckResult = sec.code ∧
      (r.success = true ↔ (sec.allowed = true ∧ exec.isOk = true)) ∧
      (∀ o, r.output = some o → ∃ raw, o = truncateForLog raw)) ∧
    (∀ r, r ∈ logsOfSteps (runWebhookSkill skill cp sec exec input startTime now).steps →
      r.durationMs = now - startTime ∧ r.input = truncateForLog input ∧
      r.securityCheckResult = sec.code ∧
      (r.success = true ↔ (sec.allowed = true ∧ exec.isOk = true)) ∧
      (∀ o, r.output = some o → ∃ raw, o = truncateForLog raw)) ∧
    (∀ r, r ∈ logsOfSteps (runCodeSkill skill sec query startTime now).steps →
      r.durationMs = now - startTime ∧ r.input = truncateForLog query ∧
      r.securityCheckResult = sec.code ∧ r.success = sec.allowed ∧
      (∀ o, r.output = some o → ∃ raw, o = truncateForLog raw)) := by
  refine ⟨?_, ?_, ?_, ?_, ?_, ?_, ?_⟩
  · cases hsec : sec.allowed <;> cases hex : exec <;>
      simp [runTemplateSkill, logsOfSteps, hsec, hex]
  · intro d hcp
    subst hcp
    cases hsec : sec.allowed <;> cases hex : exec <;>
      simp [runWebhookSkill, logsOfSteps, hsec, hex]
  · intro m hcp
    subst hcp
    simp [runWebhookSkill]
  · cases hsec : sec.allowed <;>
      simp [runCodeSkill, logsOfSteps, hsec]
  · intro r hr
    cases hsec : sec.allowed with
    | false =>
      simp [runTemplateSkill, logsOfSteps, hsec] at hr
      subst hr
      refine ⟨by simp [logInvocation], by simp [logInvocation], by simp [logInvocation],
        by simp [logInvocation, hsec],
        logInvocation_output_truncated skill input none false sec startTime now none⟩
    | true =>
      cases hex : exec with
      | ok v =>
        simp [runTemplateSkill, logsOfSteps, hsec, hex] at hr
        subst hr
        refine ⟨by simp [logInvocation], by simp [logInvocation], by simp [logInvocation],
          by simp [logInvocation, hsec, hex, Except.isOk, Except.toBool],
          logInvocation_output_truncated skill input (some v) true sec startTime now none⟩
      | error e =>
        simp [runTemplateSkill, logsOfSteps, hsec, hex] at hr
        subst hr
        refine ⟨by simp [logInvocation], by simp [logInvocation], by simp [logInvocation],
          by simp [logInvocation, hsec, hex, Except.isOk, Except.toBool],
          logInvocation_output_truncated skill input none false sec startTime now (some e)⟩
  · intro r hr
    cases hcp : cp with
    | error m =>
      simp [runWebhookSkill, hcp, logsOfSteps] at hr
    | ok d =>
      cases hsec : sec.allowed with
      | false =>
        simp [runWebhookSkill, hcp, logsOfSteps, hsec] at hr
        subst hr
        refine ⟨by simp [logInvocation], by simp [logInvocation], by simp [logInvocation],
          by simp [logInvocation, hsec],
          logInvocation_output_truncated skill input none false sec startTime now none⟩
      | true =>
        cases hex : exec with
        | ok v =>
          simp [runWebhookSkill, hcp, logsOfSteps, hsec, hex] at hr
          subst hr
          refine ⟨by simp [logInvocation], by simp [logInvocation], by simp [logInvocation],
            by simp [logInvocation, hsec, hex, Except.isOk, Except.toBool],
            logInvocation_output_truncated skill input (some v) true sec startTime now none⟩
        | error e =>
          simp [runWebhookSkill, hcp, logsOfSteps, hsec, hex] at hr
          subst hr
          refine ⟨by simp [logInvocation], by simp [logInvocation], by simp [logInvocation],
            by simp [logInvocation, hsec, hex, Except.isOk, Except.toBool],
            logInvocation_output_truncated skill input none false sec startTime now (some e)⟩
  · intro r hr
    cases hsec : sec.allowed with
    | false =>
      simp [runCodeSkill, logsOfSteps, hsec] at hr
      subst hr
      refine ⟨by simp [logInvocation], by simp [logInvocation], by simp [logInvocation],
        by simp [logInvocation, hsec],
        logInvocation_output_truncated skill query none false sec startTime now none⟩
    | true =>
      simp [runCodeSkill, logsOfSteps, hsec] at hr
      subst hr
      refine ⟨by simp [logInvocation], by simp [logInvocation], by simp [logInvocation],
        by simp [logInvocation, hsec],
        logInvocation_output_truncated skill query (some (codeSkillResult skill query)) true
          sec startTime now none⟩

/-- C2 witness: a concrete template-skill call logs one record with the
claimed fields; a webhook call with a successfully parsed config logs one
record, while one whose config parsing throws performs no step at all. -/
theorem skill_call_logs_exactly_one_record_witness :
    (logsOfSteps (runTemplateSkill skillAlpha secAllow (Except.ok "out") "in" 10 25).steps).length
        = 1 ∧
    (logsOfSteps (runWebhookSkill skillAlpha (Except.ok (some "example.test")) secAllow
        (Except.ok "out") "in" 10 25).steps).length = 1 ∧
    (runWebhookSkill skillAlpha (Except.error "Unexpected token in JSON") secAllow
        (Except.ok "out") "in" 10 25).steps = [] ∧
    (logInvocation skillAlpha "in" (some "out") true secAllow 10 25 none).durationMs = 25 - 10 ∧
    (logInvocation skillAlpha "in" (some "out") true secAllow 10 25 none).securityCheckResult
        = secAllow.code := by
  have h := skill_call_logs_exactly_one_record skillAlpha secAllow (Except.ok "out")
    (Except.ok (some "example.test")) "in" "q" 10 25
  have h2 := skill_call_logs_exactly_one_record skillAlpha secAllow (Except.ok "out")
    (Except.error "Unexpected token in JSON") "in" "q" 10 25
  have hlist : logsOfSteps (runTemplateSkill skillAlpha secAllow (Except.ok "out") "in" 10 25).steps
      = [logInvocation skillAlpha "in" (some "out") true secAllow 10 25 none] := rfl
  have hf := h.2.2.2.2.1 (logInvocation skillAlpha "in" (some "out") true secAllow 10 25 none)
    (by rw [hlist]; exact List.mem_cons_self _ _)
  exact ⟨h.1, h.2.1 (some "example.test") rfl,
    h2.2.2.1 "Unexpected token in JSON" rfl, hf.1, hf.2.2.1⟩

/-! ## Claim C6: discovery transport fallback and body tolerance -/

/-- C6: discovery first POSTs the JSON-RPC 2.0 `tools/list`; when the POST
throws, the only other request is a GET on the same URL; an ok response is
accepted as direct JSON, or as an SSE body whose `data: {...}` line parses. -/
theorem mcp_discovery_post_then_get_fallback
    (url : String) (transport : McpRequest → FetchOutcome)
    (parseJson : String → Option JsonV) :
    ((mcpDiscover url transport parseJson).requests.head? = some (toolsListRequest url) ∧
      toolsListRequest url = McpRequest.post url "2.0" "tools/list" 1) ∧
    (∀ m, transport (toolsListRequest url) = FetchOutcome.throws m →
      (mcpDiscover url transport parseJson).requests
        = [toolsListRequest url, McpRequest.get url]) ∧
    (∀ st body d, transport (toolsListRequest url) = FetchOutcome.resp true st body →
      parseJson body = some d →
      (mcpDiscover url transport parseJson).requests = [toolsListRequest url] ∧
      (mcpDiscover url transport parseJson).outcome = DiscoveryOutcome.parsed d) ∧
    (∀ st body s d, transport (toolsListRequest url) = FetchOutcome.resp true st body →
      parseJson body = none → sseExtract body = some s → parseJson s = some d →
      (mcpDiscover url transport parseJson).outcome = DiscoveryOutcome.parsed d) := by
  refine ⟨⟨?_, rfl⟩, ?_, ?_, ?_⟩
  · cases ht : transport (toolsListRequest url) with
    | resp ok status body => simp [mcpDiscover, ht]
    | throws m =>
      cases hg : transport (McpRequest.get url) with
      | resp ok status body => simp [mcpDiscover, ht, hg]
      | throws m' => simp [mcpDiscover, ht, hg]
  · intro m ht
    cases hg : transport (McpRequest.get url) with
    | resp ok status body => simp [mcpDiscover, ht, hg]
    | throws m' => simp [mcpDiscover, ht, hg]
  · intro st body d ht hp
    simp [mcpDiscover, ht, mcpDiscoverBody, hp]
  · intro st body s d ht hp hs hp2
    simp [mcpDiscover, ht, mcpDiscoverBody, hp, hs, hp2]

/-- A transport whose POST throws and whose GET answers. -/
def discoveryThrowingTransport : McpRequest → FetchOutcome := fun r =>
  match r with
  | McpRequest.post _ _ _ _ => FetchOutcome.throws "posting failed"
  | McpRequest.get _ => FetchOutcome.resp true 200 "ignored"

/-- An SSE response body with an embedded JSON `data:` line. -/
def sseBody : String := "event: message\ndata: \x7b\"tools\": []\x7d\n"

/-- A parser recognizing only the embedded JSON of `sseBody`. -/
def sseOnlyParse : String → Option JsonV := fun s =>
  if s = "\x7b\"tools\": []\x7d" then some (JsonV.obj [("tools", JsonV.arr [])]) else none

/-- A transport answering the POST with the SSE body. -/
def sseTransport : McpRequest → FetchOutcome := fun _ =>
  FetchOutcome.resp true 200 sseBody

/-- C6 witness: a throwing POST falls back to a GET on the same URL, and an
SSE body is accepted via its `data:` line. -/
theorem mcp_discovery_post_then_get_fallback_witness :
    (mcpDiscover "https://a.example" discoveryThrowingTransport sseOnlyParse).requests
      = [toolsListRequest "https://a.example", McpRequest.get "https://a.example"] ∧
    (mcpDiscover "https://b.example" sseTransport sseOnlyParse).outcome
      = DiscoveryOutcome.parsed (JsonV.obj [("tools", JsonV.arr [])]) := by
  constructor
  · exact (mcp_discovery_post_then_get_fallback "https://a.example"
      discoveryThrowingTransport sseOnlyParse).2.1 "posting failed" rfl
  · exact (mcp_discovery_post_then_get_fallback "https://b.example"
      sseTransport sseOnlyParse).2.2.2 200 sseBody "\x7b\"tools\": []\x7d"
      (JsonV.obj [("tools", JsonV.arr [])]) rfl rfl rfl rfl

/-! ## Claim C7: call endpoint fallback -/

/-- C7: an MCP tool invocation tries the bare server URL first, then the
URL with the `/tools/call` suffix; it stops at the first endpoint that
succeeds, and when both fail the surfaced error is the one from the last
attempt. -/
theorem mcp_call_endpoint_fallback (serverUrl : String)
    (transport : String → FetchOutcome) (parseJson : String → Option JsonV) :
    ((runMcpTool serverUrl transport parseJson).attempts.head? = some serverUrl) ∧
    (∀ d, mcpAttempt transport parseJson serverUrl = Except.ok d →
      (runMcpTool serverUrl transport parseJson).attempts = [serverUrl] ∧
      (runMcpTool serverUrl transport parseJson).result = Except.ok (mcpExtract d)) ∧
    (∀ e, mcpAttempt transport parseJson serverUrl = Except.error e →
      (runMcpTool serverUrl transport parseJson).attempts
        = [serverUrl, mcpCallUrl serverUrl]) ∧
    (∀ e1 e2, mcpAttempt transport parseJson serverUrl = Except.error e1 →
      mcpAttempt transport parseJson (mcpCallUrl serverUrl) = Except.error e2 →
      (runMcpTool serverUrl transport parseJson).result = Except.error e2) ∧
    (∀ e1 d, mcpAttempt transport parseJson serverUrl = Except.error e1 →
      mcpAttempt transport parseJson (mcpCallUrl serverUrl) = Except.ok d →
      (runMcpTool serverUrl transport parseJson).result = Except.ok (mcpExtract d)) := by
  refine ⟨?_, ?_, ?_, ?_, ?_⟩
  · cases h1 : mcpAttempt transport parseJson serverUrl with
    | ok d => simp [runMcpTool, mcpTryUrls, h1]
    | error e =>
      cases h2 : mcpAttempt transport parseJson (mcpCallUrl serverUrl) with
      | ok d => simp [runMcpTool, mcpTryUrls, h1, h2]
      | error e2 => simp [runMcpTool, mcpTryUrls, h1, h2]
  · intro d h1
    constructor <;> simp [runMcpTool, mcpTryUrls, h1]
  · intro e h1
    cases h2 : mcpAttempt transport parseJson (mcpCallUrl serverUrl) with
    | ok d => simp [runMcpTool, mcpTryUrls, h1, h2]
    | error e2 => simp [runMcpTool, mcpTryUrls, h1, h2]
  · intro e1 e2 h1 h2
    simp [runMcpTool, mcpTryUrls, h1, h2]
  · intro e1 d h1 h2
    simp [runMcpTool, mcpTryUrls, h1, h2]

/-- A transport that refuses every connection. -/
def refusingTransport : String → FetchOutcome := fun _ =>
  FetchOutcome.throws "connection refused"

/-- C7 witness: when both endpoints fail, both are tried in order and the
last error surfaces. -/
theorem mcp_call_endpoint_fallback_witness :
    mcpCallUrl "https://mcp.example.com/mcp" = "https://mcp.example.com/mcp/tools/call" ∧
    (runMcpTool "https://mcp.example.com/mcp" refusingTransport demoParseJson).attempts
      = ["https://mcp.example.com/mcp", mcpCallUrl "https://mcp.example.com/mcp"] ∧
    (runMcpTool "https://mcp.example.com/mcp" refusingTransport demoParseJson).result
      = Except.error "connection refused" := by
  refine ⟨rfl, ?_, ?_⟩
  · exact (mcp_call_endpoint_fallback "https://mcp.example.com/mcp" refusingTransport
      demoParseJson).2.2.1 "connection refused" rfl
  · exact (mcp_call_endpoint_fallback "https://mcp.example.com/mcp" refusingTransport
      demoParseJson).2.2.2.1 "connection refused" "connection refused" rfl rfl

/-! ## Claim C8: rate-limited chat.send short-circuits -/

/-- C8: when the per-session or the global rate-limit check fails,
`chat.send` returns an error together with the caller's `threadId`
unchanged, and performs none of the downstream effects (no agent creation,
no thread continuation or creation, no model invocation). -/
theorem chat_send_rate_limited_short_circuits
    (args : SendArgs) (proceed : SendResult × List ChatEvent)
    (sessionOk globalOk : Bool) (h : sessionOk = false ∨ globalOk = false) :
    ((chatSend sessionOk globalOk args proceed).1.error.isSome = true) ∧
    ((chatSend sessionOk globalOk args proceed).1.threadId = args.threadId) ∧
    ((chatSend sessionOk globalOk args proceed).2 = []) := by
  rcases h with h | h
  · subst h
    simp [chatSend]
  · subst h
    cases sessionOk <;> simp [chatSend]

/-- C8 witness: a concrete rate-limited send. -/
theorem chat_send_rate_limited_short_circuits_witness :
    ((chatSend false true { threadId := some "t1", message := "hi", sessionId := "s1" }
        ({ response := some "r", error := none, threadId := some "t1" },
         [ChatEvent.createAgent, ChatEvent.generateText])).1.error.isSome = true) ∧
    ((chatSend false true { threadId := some "t1", message := "hi", sessionId := "s1" }
        ({ response := some "r", error := none, threadId := some "t1" },
         [ChatEvent.createAgent, ChatEvent.generateText])).1.threadId = some "t1") ∧
    ((chatSend false true { threadId := some "t1", message := "hi", sessionId := "s1" }
        ({ response := some "r", error := none, threadId := some "t1" },
         [ChatEvent.createAgent, ChatEvent.generateText])).2 = []) :=
  chat_send_rate_limited_short_circuits
    { threadId := some "t1", message := "hi", sessionId := "s1" }
    ({ response := some "r", error := none, threadId := some "t1" },
     [ChatEvent.createAgent, ChatEvent.generateText])
    false true (Or.inl rfl)

/-! ## Claim C9: web_fetch URL validation and timeout clamp -/

/-- C9: a `web_fetch` argument whose URL does not parse, or parses to a
non-http(s) protocol, yields a `success := false` result with an error and
no network request; and every request the handler does issue carries an
effective timeout of at most 60000 ms. -/
theorem web_fetch_validation_and_timeout
    (parseUrl : String → Option UrlParts) (doFetch : WebFetchRequest → FetchOutcome)
    (args : WebFetchArgs) :
    (parseUrl args.url = none →
      webFetchHandler parseUrl doFetch args =
        { success := false, error := some "Invalid URL",
          message := some "Please provide a valid URL.", requests := [] }) ∧
    (∀ u, parseUrl args.url = some u → u.protocol ≠ "http:" → u.protocol ≠ "https:" →
      webFetchHandler parseUrl doFetch args =
        { success := false, error := some "Invalid protocol",
          message := some "Only HTTP and HTTPS URLs are supported.", requests := [] }) ∧
    (∀ r, r ∈ (webFetchHandler parseUrl doFetch args).requests → r.timeoutMs ≤ 60000) := by
  refine ⟨?_, ?_, ?_⟩
  · intro hp
    simp [webFetchHandler, hp]
  · intro u hp h1 h2
    simp [webFetchHandler, hp, h1, h2]
  · intro r hr
    unfold webFetchHandler at hr
    cases hp : parseUrl args.url with
    | none => simp [hp] at hr
    | some u =>
      simp only [hp] at hr
      by_cases hproto : u.protocol ≠ "http:" ∧ u.protocol ≠ "https:"
      · simp [if_pos hproto] at hr
      · rw [if_neg hproto] at hr
        cases hf : doFetch (webFetchRequestOf args) with
        | resp ok status body =>
          simp only [hf, List.mem_singleton] at hr
          subst hr
          exact min_le_right _ _
        | throws m =>
          simp only [hf, List.mem_singleton] at hr
          subst hr
          exact min_le_right _ _

/-- C9 witness: an unparseable URL is rejected without a request, and an
oversized timeout is clamped to 60000 ms on the issued request. -/
theorem web_fetch_validation_and_timeout_witness :
    (webFetchHandler (fun _ => none) (fun _ => FetchOutcome.resp true 200 "")
        { url := "not a url", method := "GET", timeout := none } =
      { success := false, error := some "Invalid URL",
        message := some "Please provide a valid URL.", requests := [] }) ∧
    (∀ r, r ∈ (webFetchHandler (fun _ => some { protocol := "http:" })
        (fun _ => FetchOutcome.resp true 200 "")
        { url := "http://x.test", method := "GET", timeout := some 999999 }).requests →
      r.timeoutMs ≤ 60000) := by
  constructor
  · exact (web_fetch_validation_and_timeout (fun _ => none)
      (fun _ => FetchOutcome.resp true 200 "")
      { url := "not a url", method := "GET", timeout := none }).1 rfl
  · exact (web_fetch_validation_and_timeout (fun _ => some { protocol := "http:" })
      (fun _ => FetchOutcome.resp true 200 "")
      { url := "http://x.test", method := "GET", timeout := some 999999 }).2.2

/-! ## Claim C10: switchModel rejects unknown providers without mutating -/

/-- C10: a `switchModel` call whose provider is not among the available
providers returns `success := false` and performs no mutation: the stored
agent configuration and the activity log are unchanged. -/
theorem switch_model_invalid_provider_no_mutation
    (providers : List ProviderInfo) (provider model : String) (st : ConfigState)
    (h : provider ∉ providers.map (·.id)) :
    ((switchModel providers provider model st).1.success = false) ∧
    ((switchModel providers provider model st).2 = st) := by
  have hfind : providers.find? (fun p => p.id == provider) = none := by
    rw [List.find?_eq_none]
    intro p hp
    have : p.id ≠ provider := fun hid => h (List.mem_map.mpr ⟨p, hp, hid⟩)
    simpa using this
  constructor <;> simp [switchModel, hfind]

/-- C10 witness: switching to an unknown provider on a concrete state is
rejected and leaves the state intact. -/
theorem switch_model_invalid_provider_no_mutation_witness :
    ((switchModel [{ id := "anthropic" }, { id := "openai" }] "bogus" "gpt-x"
        { config := some { model := "m0", modelProvider := "anthropic" },
          activityLog := [] }).1.success = false) ∧
    ((switchModel [{ id := "anthropic" }, { id := "openai" }] "bogus" "gpt-x"
        { config := some { model := "m0", modelProvider := "anthropic" },
          activityLog := [] }).2 =
      { config := some { model := "m0", modelProvider := "anthropic" },
        activityLog := [] }) :=
  switch_model_invalid_provider_no_mutation
    [{ id := "anthropic" }, { id := "openai" }] "bogus" "gpt-x"
    { config := some { model := "m0", modelProvider := "anthropic" }, activityLog := [] }
    (by decide)

end ClawSync
